import Mathlib

/-!
Shallow embedding of `ab_tester.py` (single-file A/B test analyzer).

Conventions of the embedding:
* pandas `Series` of metric values are `List ℚ` (exact rational arithmetic in
  place of IEEE floats; none of the verified claims depends on rounding);
* a float `NaN` produced by a statistical routine is `Option.none`;
* the tabular input is `DataFrame`: a list of column names plus the projected
  (group, value) rows, where a cell of the value column is `RawVal`
  (missing, numeric, or unparsable text);
* the `ValueError`s raised by `check_inputs` are the constructors of `ABError`;
* `numpy.random.Generator` is modelled as a deterministic stream (`Rng`)
  created from the seed at each `bootstrap_lift_ci` call, exactly as
  `np.random.default_rng(seed)` is called once at the top of the Python
  function.  The bootstrap theorems are proved for an arbitrary generator
  state, so nothing depends on the particular stream values.
-/

namespace ABTester

/-- Arithmetic mean of a list of rationals (`Series.mean` / `ndarray.mean`;
the empty list gives `0/0 = 0`, which is only ever used behind non-emptiness
guards). -/
def sampleMean (l : List ℚ) : ℚ := l.sum / (l.length : ℚ)

/-- Unbiased (ddof = 1) sample variance, as used by
`scipy.stats.ttest_ind`.  For `l.length ≤ 1` the rational division by zero
returns the junk value `0`; callers guard on the length. -/
def sampleVar (l : List ℚ) : ℚ :=
  ((l.map (fun x => (x - sampleMean l) ^ 2)).sum) / ((l.length : ℚ) - 1)

/-- Sort a list of rationals ascending (the sort underlying quantile
computations in pandas/numpy). -/
def sortQ (l : List ℚ) : List ℚ := List.insertionSort (· ≤ ·) l

/-- `Series.quantile(q)` / `np.quantile(xs, q)` with the default linear
interpolation between order statistics: position `h = (n-1)q`, lower index
`k = ⌊h⌋`, result `s[k] + (h-k)·(s[k+1] - s[k])`.  Returns `none` on an
empty list (pandas yields `NaN`, numpy fails). -/
def quantileLinear (l : List ℚ) (q : ℚ) : Option ℚ :=
  if l.isEmpty then none
  else
    let s := sortQ l
    let h : ℚ := ((l.length : ℚ) - 1) * q
    let k : ℕ := (Int.floor h).toNat
    let g : ℚ := h - (k : ℚ)
    some (s.getD k 0 + g * (s.getD (k + 1) (s.getD k 0) - s.getD k 0))

/-- `Series.clip(lower, upper)`: values below `lo` are raised to `lo`,
values above `hi` lowered to `hi` (upper bound applied last, as in numpy). -/
def clipQ (lo hi x : ℚ) : ℚ := min (max x lo) hi

/-- Embedding of `winsorize_series(s, p)` (ab_tester.py lines 48-56):
if `p ≤ 0` return `s` unchanged, otherwise clip at the `p` and `1-p`
linear-interpolation quantiles.  The fallback arm only triggers for the
empty series, where pandas clips an empty series to itself. -/
def winsorize_series (s : List ℚ) (p : ℚ) : List ℚ :=
  if p ≤ 0 then s
  else
    match quantileLinear s p, quantileLinear s (1 - p) with
    | some lo, some hi => s.map (clipQ lo hi)
    | _, _ => s

/-- A cell of the raw value column before numeric coercion: missing (`NaN`),
numeric, or unparsable text (which `pd.to_numeric(errors="coerce")` turns
into missing). -/
inductive RawVal where
  | na : RawVal
  | num : ℚ → RawVal
  | text : RawVal
deriving DecidableEq

/-- The tabular input restricted to the two columns `check_inputs` uses:
the list of column names of the frame, and per row the (group label, raw
value) pair.  A missing group label is `none`. -/
structure DataFrame (L : Type) where
  cols : List String
  rows : List (Option L × RawVal)

/-- The distinct `ValueError`s raised by `ab_tester.py`, plus the failure of
`np.quantile` on an empty array inside `bootstrap_lift_ci` (which the Python
code does not guard against). -/
inductive ABError where
  | schemaError : ABError
  | emptyAfterDropna : ABError
  | groupCardinality : ℕ → ABError
  | emptyBootstrapQuantile : ABError
deriving DecidableEq

/-- `df[[group_col, value_col]].dropna()` (line 63): keep the rows where
both the group label and the raw value are present. -/
def cleanRows {L : Type} (rows : List (Option L × RawVal)) :
    List (Option L × RawVal) :=
  rows.filter (fun r => r.1.isSome && decide (r.2 ≠ RawVal.na))

/-- Numeric coercion followed by `dropna(subset=[value_col])`
(lines 67-68): keep the rows whose value parses as a number. -/
def coerceRows {L : Type} (rows : List (Option L × RawVal)) : List (L × ℚ) :=
  rows.filterMap (fun r =>
    match r with
    | (some g, RawVal.num q) => some (g, q)
    | _ => none)

/-- `df.loc[df[group_col] == label, value_col]` (lines 74-75): the value
sequence of one group, in row order. -/
def groupValues {L : Type} [DecidableEq L] (rows : List (L × ℚ)) (label : L) :
    List ℚ :=
  (rows.filter (fun r => decide (r.1 = label))).map Prod.snd

/-- Embedding of `check_inputs(df, group_col, value_col)`
(ab_tester.py lines 59-76): column presence check, dropna, emptiness check,
numeric coercion, two-distinct-groups check, then split into the group of the
lexicographically smaller label and the group of the larger one. -/
def check_inputs {L : Type} [LinearOrder L] [DecidableEq L] (df : DataFrame L)
    (group_col value_col : String) : Except ABError (List ℚ × List ℚ) :=
  if group_col ∈ df.cols ∧ value_col ∈ df.cols then
    if (cleanRows df.rows).isEmpty then Except.error ABError.emptyAfterDropna
    else
      match List.insertionSort (· ≤ ·)
          (((coerceRows (cleanRows df.rows)).map Prod.fst).dedup) with
      | [la, lb] =>
        Except.ok (groupValues (coerceRows (cleanRows df.rows)) la,
                   groupValues (coerceRows (cleanRows df.rows)) lb)
      | ls => Except.error (ABError.groupCardinality ls.length)
  else Except.error ABError.schemaError

/-- Pooled standard error squared, `var_a/n_a + var_b/n_b`, the denominator
under the square root of Welch's t statistic. -/
def welchSE (a b : List ℚ) : ℚ :=
  sampleVar a / (a.length : ℚ) + sampleVar b / (b.length : ℚ)

/-- The Welch t statistic computed by `scipy.stats.ttest_ind(a, b,
equal_var=False)`: `(mean_a - mean_b) / sqrt(var_a/n_a + var_b/n_b)`
(first sample minus second sample, scipy's convention). -/
noncomputable def welchT (a b : List ℚ) : ℝ :=
  ((sampleMean a - sampleMean b : ℚ) : ℝ) / Real.sqrt ((welchSE a b : ℚ) : ℝ)

/-- Welch–Satterthwaite degrees of freedom used by scipy for the unequal
variance t-test. -/
def welchDF (a b : List ℚ) : ℚ :=
  (welchSE a b) ^ 2 /
    ((sampleVar a / (a.length : ℚ)) ^ 2 / ((a.length : ℚ) - 1) +
     (sampleVar b / (b.length : ℚ)) ^ 2 / ((b.length : ℚ) - 1))

/-- Regularized incomplete beta function `I_x(a, b)` written as a ratio of
integrals; the mathematical function behind `scipy.special.stdtr`. -/
noncomputable def betaInc (a b x : ℝ) : ℝ :=
  (∫ u in (0 : ℝ)..x, u ^ (a - 1) * (1 - u) ^ (b - 1)) /
    (∫ u in (0 : ℝ)..(1 : ℝ), u ^ (a - 1) * (1 - u) ^ (b - 1))

/-- Two-sided p-value of a Student t statistic `t` with `df` degrees of
freedom: `P(|T| ≥ |t|) = I_{df/(df+t²)}(df/2, 1/2)`, the closed form scipy
evaluates through the incomplete beta function. -/
noncomputable def tTwoSidedP (df : ℚ) (t : ℝ) : ℝ :=
  betaInc ((df : ℝ) / 2) (1 / 2) ((df : ℝ) / ((df : ℝ) + t ^ 2))

/-- Embedding of `welch_t_test(a, b)` (ab_tester.py lines 79-81), i.e. of
`scipy.stats.ttest_ind(a, b, equal_var=False)`: the pair (t, p).  When a
sample has fewer than 2 observations the ddof-1 variance is `NaN`, and when
the pooled standard error vanishes the division yields `NaN`/`inf`; both
degenerate cases are `none`. -/
noncomputable def welch_t_test (a b : List ℚ) : Option ℝ × Option ℝ :=
  if 2 ≤ a.length ∧ 2 ≤ b.length ∧ 0 < welchSE a b then
    (some (welchT a b), some (tTwoSidedP (welchDF a b) (welchT a b)))
  else (none, none)

/-- Mann–Whitney U statistic for the first sample, as returned by
`scipy.stats.mannwhitneyu(a, b)`: number of pairs with `a_i > b_j` plus half
the ties. -/
def mwU (a b : List ℚ) : ℚ :=
  (a.map (fun x =>
    ((b.filter (fun y => decide (y < x))).length : ℚ) +
      ((b.filter (fun y => decide (y = x))).length : ℚ) / 2)).sum

/-- Standard normal cumulative distribution function. -/
noncomputable def normalCdf (z : ℝ) : ℝ :=
  (∫ t in Set.Iio z, Real.exp (-(t ^ 2) / 2)) / Real.sqrt (2 * Real.pi)

/-- Tie correction term `Σ (t³ - t)` over the tie groups of the pooled
sample, used in the variance of the normal approximation of U. -/
def mwTieTerm (a b : List ℚ) : ℚ :=
  let c := a ++ b
  ((c.dedup).map (fun v =>
    ((c.filter (fun y => decide (y = v))).length : ℚ) ^ 3 -
      ((c.filter (fun y => decide (y = v))).length : ℚ))).sum

/-- Tie-corrected variance of the U statistic under the null. -/
def mwSigmaSq (a b : List ℚ) : ℚ :=
  let n1 : ℚ := (a.length : ℚ)
  let n2 : ℚ := (b.length : ℚ)
  let n : ℚ := n1 + n2
  n1 * n2 / 12 * ((n + 1) - mwTieTerm a b / (n * (n - 1)))

/-- Embedding of `mann_whitney(a, b)` (ab_tester.py lines 84-86), i.e. of
`scipy.stats.mannwhitneyu(a, b, alternative="two-sided")`: exact U
statistic, p-value by the tie-corrected normal approximation with
continuity correction (scipy's asymptotic method).  No verified claim
depends on the p-value component. -/
noncomputable def mann_whitney (a b : List ℚ) : ℚ × ℝ :=
  let u := mwU a b
  let mu : ℚ := (a.length : ℚ) * (b.length : ℚ) / 2
  (u, 2 * normalCdf (-((|((u : ℝ)) - ((mu : ℚ) : ℝ)| - 1 / 2) /
      Real.sqrt ((mwSigmaSq a b : ℚ) : ℝ))))

/-- Deterministic generator state standing in for
`numpy.random.Generator`. -/
structure Rng where
  state : ℕ
deriving DecidableEq

/-- One step of the modelled generator (a 64-bit linear congruential
stream; a stand-in for numpy's PCG64 output, which is deterministic in the
seed in exactly the same sense). -/
def rngNext (r : Rng) : ℕ × Rng :=
  let s := (6364136223846793005 * r.state + 1442695040888963407) % (2 ^ 64)
  (s, ⟨s⟩)

/-- `np.random.default_rng(seed)`: a fresh generator determined by the seed
alone. -/
def default_rng (seed : ℕ) : Rng := ⟨seed % (2 ^ 64)⟩

/-- `rng.choice(vals, size=n, replace=True)`: `n` draws with replacement,
threading the generator state. -/
def rngChoice (vals : List ℚ) : ℕ → Rng → List ℚ × Rng
  | 0, r => ([], r)
  | n + 1, r =>
    (vals.getD ((rngNext r).1 % vals.length) 0 :: (rngChoice vals n (rngNext r).2).1,
     (rngChoice vals n (rngNext r).2).2)

/-- The two resamples drawn by one iteration of the bootstrap loop
(`a` first, then `b`, each of its own sample's size — the draw order of
ab_tester.py lines 95-96). -/
def iterationDraw (a b : List ℚ) (r : Rng) : (List ℚ × List ℚ) × Rng :=
  (((rngChoice a a.length r).1,
    (rngChoice b b.length (rngChoice a a.length r).2).1),
   (rngChoice b b.length (rngChoice a a.length r).2).2)

/-- One iteration of the bootstrap loop (lines 95-102): draw both
resamples, then record `NaN` (`none`) if the `a` resample mean is zero and
the relative lift otherwise. -/
def iterationLift (a b : List ℚ) (r : Rng) : Option ℚ × Rng :=
  (if sampleMean (iterationDraw a b r).1.1 = 0 then none
   else some ((sampleMean (iterationDraw a b r).1.2 - sampleMean (iterationDraw a b r).1.1) /
     sampleMean (iterationDraw a b r).1.1),
   (iterationDraw a b r).2)

/-- The full `lifts` array of `bootstrap_lift_ci` before NaN filtering:
one slot per iteration, in iteration order. -/
def bootstrapLifts (a b : List ℚ) : Rng → ℕ → List (Option ℚ) × Rng
  | r, 0 => ([], r)
  | r, n + 1 =>
    ((iterationLift a b r).1 :: (bootstrapLifts a b (iterationLift a b r).2 n).1,
     (bootstrapLifts a b (iterationLift a b r).2 n).2)

/-- Generator state at the start of iteration `i` of the bootstrap loop. -/
def rngIter (a b : List ℚ) (r : Rng) : ℕ → Rng
  | 0 => r
  | i + 1 => rngIter a b (iterationLift a b r).2 i

/-- Core of `bootstrap_lift_ci` for a given generator state: run the loop,
drop the `NaN` lifts (line 103), and take the `alpha/2` and `1 - alpha/2`
linear-interpolation quantiles of what remains (lines 104-105).  `none`
models the failure of `np.quantile` on an empty array. -/
def bootstrap_lift_ci_rng (a b : List ℚ) (n_boot : ℕ) (alpha : ℚ)
    (r : Rng) : Option (ℚ × ℚ) :=
  match quantileLinear (((bootstrapLifts a b r n_boot).1).filterMap id) (alpha / 2),
        quantileLinear (((bootstrapLifts a b r n_boot).1).filterMap id) (1 - alpha / 2) with
  | some lo, some hi => some (lo, hi)
  | _, _ => none

/-- Embedding of `bootstrap_lift_ci(a, b, n_boot, alpha, seed)`
(ab_tester.py lines 89-106): the generator is created from the seed at the
top of the call (`rng = np.random.default_rng(seed)`) and used by this call
alone. -/
def bootstrap_lift_ci (a b : List ℚ) (n_boot : ℕ) (alpha : ℚ)
    (seed : ℕ) : Option (ℚ × ℚ) :=
  bootstrap_lift_ci_rng a b n_boot alpha (default_rng seed)

/-- Embedding of the `ABResult` dataclass (ab_tester.py lines 28-45).
`lift`, `welch_t`, `welch_p` are `Option`s because the Python values can be
`NaN`. -/
structure ABResult where
  group_a_mean : ℚ
  group_b_mean : ℚ
  group_a_n : ℕ
  group_b_n : ℕ
  lift : Option ℚ
  welch_t : Option ℝ
  welch_p : Option ℝ
  mw_u : ℚ
  mw_p : ℝ
  ci_low : ℚ
  ci_high : ℚ
  alpha : ℚ
  winsor : ℚ
  metric : String
  group_col : String
  value_col : String

/-- Embedding of `analyze_ab(df, group_col, value_col, winsor, alpha,
n_boot)` (ab_tester.py lines 109-148): validate and split, optionally
winsorize each group, compute the statistics, bootstrap with the default
seed 42, and assemble the result record. -/
noncomputable def analyze_ab {L : Type} [LinearOrder L] [DecidableEq L]
    (df : DataFrame L) (group_col value_col : String) (winsor alpha : ℚ)
    (n_boot : ℕ) : Except ABError ABResult :=
  match check_inputs df group_col value_col with
  | Except.error e => Except.error e
  | Except.ok (a0, b0) =>
    let a := if 0 < winsor then winsorize_series a0 winsor else a0
    let b := if 0 < winsor then winsorize_series b0 winsor else b0
    let ga := sampleMean a
    let gb := sampleMean b
    let w := welch_t_test a b
    let mw := mann_whitney a b
    match bootstrap_lift_ci a b n_boot alpha 42 with
    | some (lo, hi) =>
      Except.ok
        { group_a_mean := ga
          group_b_mean := gb
          group_a_n := a.length
          group_b_n := b.length
          lift := if ga = 0 then none else some ((gb - ga) / ga)
          welch_t := w.1
          welch_p := w.2
          mw_u := mw.1
          mw_p := mw.2
          ci_low := lo
          ci_high := hi
          alpha := alpha
          winsor := winsor
          metric := value_col
          group_col := group_col
          value_col := value_col }
    | none => Except.error ABError.emptyBootstrapQuantile

/-! ## Helper lemmas -/

/-- Any linear-interpolation quantile of a one-element list is its unique
element. -/
theorem quantileLinear_singleton (v q : ℚ) : quantileLinear [v] q = some v := by
  simp [quantileLinear, sortQ, List.insertionSort]

/-- Mean of a one-element sample. -/
theorem sampleMean_single (c : ℚ) : sampleMean [c] = c := by
  simp [sampleMean]

/-- A single bootstrap iteration over two one-element samples `[c]`, `[d]`
with `c ≠ 0` always resamples `([c], [d])` and retains the lift
`(d - c)/c`. -/
theorem bootstrapLifts_one_single (c d : ℚ) (r : Rng) (hc : c ≠ 0) :
    (bootstrapLifts [c] [d] r 1).1 = [some ((d - c) / c)] := by
  simp [bootstrapLifts, iterationLift, iterationDraw, rngChoice,
    sampleMean_single, hc, Nat.mod_one]

/-! ## C8: winsorization with `p = 0` is the identity -/

/-- C8: for every numeric sequence `s`, `winsorize_series s 0 = s`; the
`p ≤ 0` early return of lines 52-53 makes `p = 0` (the default of
`analyze_ab`) an identity transform. -/
theorem winsorize_zero_identity (s : List ℚ) : winsorize_series s 0 = s := by
  simp [winsorize_series]

/-! ## C10: any `p ≤ 0` is the identity as well -/

/-- C10: for every series `s` and every `p ≤ 0` (including negative `p`
outside the documented domain), `winsorize_series s p` returns `s`
unchanged, taking the early-return branch in which no quantile is
computed. -/
theorem winsorize_nonpos_identity (s : List ℚ) (p : ℚ) (hp : p ≤ 0) :
    winsorize_series s p = s := by
  simp [winsorize_series, hp]

/-- Witness for C10 at `s = [3, 1, 2]`, `p = -1`. -/
theorem winsorize_nonpos_identity_witness :
    (-1 : ℚ) ≤ 0 ∧ winsorize_series [3, 1, 2] (-1) = [3, 1, 2] :=
  ⟨by norm_num, winsorize_nonpos_identity [3, 1, 2] (-1) (by norm_num)⟩

/-! ## C6: fixed seed ⇒ bit-identical CI bounds across invocations -/

/-- C6: two invocations of `bootstrap_lift_ci` on identical inputs and the
same seed return identical CI bounds, and each invocation's result is the
function of the generator freshly created from the seed at the top of the
call (`np.random.default_rng(seed)`, line 90) — no generator state is
shared across calls. -/
theorem bootstrap_seed_reproducible (a b : List ℚ) (n_boot : ℕ) (alpha : ℚ)
    (seed : ℕ) (c₁ c₂ : Option (ℚ × ℚ))
    (h₁ : c₁ = bootstrap_lift_ci a b n_boot alpha seed)
    (h₂ : c₂ = bootstrap_lift_ci a b n_boot alpha seed) :
    c₁ = c₂ ∧ c₁ = bootstrap_lift_ci_rng a b n_boot alpha (default_rng seed) := by
  subst h₁ h₂; exact ⟨rfl, rfl⟩

/-- Witness for C6: two concrete invocations at seed 7. -/
theorem bootstrap_seed_reproducible_witness :
    bootstrap_lift_ci [1] [2] 1 (1/20) 7 = bootstrap_lift_ci [1] [2] 1 (1/20) 7 ∧
    bootstrap_lift_ci [1] [2] 1 (1/20) 7 =
      bootstrap_lift_ci_rng [1] [2] 1 (1/20) (default_rng 7) :=
  bootstrap_seed_reproducible [1] [2] 1 (1/20) 7 _ _ rfl rfl

/-! ## C7: no minimum-retained-lifts check exists -/

/-- C7 counterexample: with one bootstrap iteration exactly one lift is
retained (fewer than the claimed usable minimum of 2), yet the code returns
a degenerate CI `(1, 1)` instead of failing with any
`InsufficientBootstrapSamplesError`-like error. -/
theorem bootstrap_single_retained_no_error :
    bootstrap_lift_ci [2] [4] 1 (1/20) 42 = some (1, 1) := by
  have h : ((bootstrapLifts [2] [4] (default_rng 42) 1).1).filterMap id = [1] := by
    rw [bootstrapLifts_one_single 2 4 _ (by norm_num)]
    norm_num [List.filterMap_cons]
  unfold bootstrap_lift_ci bootstrap_lift_ci_rng
  rw [h]
  simp [quantileLinear_singleton]

/-- Core fact shared below: a bootstrap run whose NaN filtering retains a
single lift value returns that value as both CI bounds. -/
theorem ci_rng_of_retained_singleton (a b : List ℚ) (n_boot : ℕ)
    (alpha : ℚ) (r : Rng) (v : ℚ)
    (h : ((bootstrapLifts a b r n_boot).1).filterMap id = [v]) :
    bootstrap_lift_ci_rng a b n_boot alpha r = some (v, v) := by
  unfold bootstrap_lift_ci_rng
  rw [h]
  simp [quantileLinear_singleton]

/-- C7 (amended): `bootstrap_lift_ci` performs no minimum-retained check:
whenever exactly one lift value survives the NaN filtering, both returned
bounds equal that value (each quantile of a singleton list is its element)
and no error is raised; only with zero retained lifts does the unguarded
`np.quantile` of an empty array fail. -/
theorem bootstrap_no_minimum_retained_check (a b : List ℚ) (n_boot : ℕ)
    (alpha : ℚ) (r : Rng) (v : ℚ)
    (h : ((bootstrapLifts a b r n_boot).1).filterMap id = [v]) :
    bootstrap_lift_ci_rng a b n_boot alpha r = some (v, v) :=
  ci_rng_of_retained_singleton a b n_boot alpha r v h

/-- Witness for C7 at a concrete run with a single retained lift. -/
theorem bootstrap_no_minimum_retained_check_witness :
    ((bootstrapLifts [2] [4] (default_rng 42) 1).1).filterMap id = [1] ∧
    bootstrap_lift_ci_rng [2] [4] 1 (1/20) (default_rng 42) = some (1, 1) := by
  have h : ((bootstrapLifts [2] [4] (default_rng 42) 1).1).filterMap id = [1] := by
    rw [bootstrapLifts_one_single 2 4 _ (by norm_num)]
    norm_num [List.filterMap_cons]
  exact ⟨h, bootstrap_no_minimum_retained_check [2] [4] 1 (1/20) (default_rng 42) 1 h⟩

/-! ## C4: winsorizing twice with the same `p` -/

/-- Evaluation form of `quantileLinear` once the floor of the interpolation
position is known. -/
theorem quantileLinear_eval (l : List ℚ) (q : ℚ) (k : ℕ) (hl : l.isEmpty = false)
    (hk : Int.floor (((l.length : ℚ) - 1) * q) = (k : ℤ)) :
    quantileLinear l q =
      some ((sortQ l).getD k 0 +
        (((l.length : ℚ) - 1) * q - (k : ℚ)) *
          ((sortQ l).getD (k + 1) ((sortQ l).getD k 0) - (sortQ l).getD k 0)) := by
  simp [quantileLinear, hl, hk]

/-- When the interpolation position `(n-1)q` is exactly the natural number
`k`, the quantile is the `k`-th order statistic. -/
theorem quantileLinear_exact (l : List ℚ) (q : ℚ) (k : ℕ) (hl : l.isEmpty = false)
    (hk : ((l.length : ℚ) - 1) * q = (k : ℚ)) :
    quantileLinear l q = some ((sortQ l).getD k 0) := by
  have hfl : Int.floor (((l.length : ℚ) - 1) * q) = (k : ℤ) := by
    rw [hk]; exact Int.floor_natCast k
  simp [quantileLinear, hl, hfl, hk]

/-- Evaluation form of `winsorize_series` for positive `p` once both
quantiles are known. -/
theorem winsorize_eval (s : List ℚ) (p lo hi : ℚ) (hp : 0 < p)
    (hlo : quantileLinear s p = some lo)
    (hhi : quantileLinear s (1 - p) = some hi) :
    winsorize_series s p = s.map (clipQ lo hi) := by
  unfold winsorize_series
  rw [if_neg (not_le.mpr hp), hlo, hhi]

/-- C4 counterexample: for `s = [0, 1, 2, 3]` and `p = 1/4` (inside the
documented domain), one winsorization gives `[3/4, 1, 2, 9/4]` but a second
one moves the clipped tails again, to `[15/16, 1, 2, 33/16]`: with
linear-interpolation quantiles, winsorizing twice is not winsorizing
once. -/
theorem winsorize_twice_counterexample :
    winsorize_series (winsorize_series [0, 1, 2, 3] (1/4)) (1/4) ≠
      winsorize_series [0, 1, 2, 3] (1/4) := by
  have h1 : winsorize_series [0, 1, 2, 3] (1/4) = [3/4, 1, 2, 9/4] := by
    rw [winsorize_eval [0, 1, 2, 3] (1/4) (3/4) (9/4) (by norm_num)
      (by rw [quantileLinear_eval _ _ 0 (by norm_num) (by norm_num)]
          norm_num [sortQ, List.insertionSort, List.orderedInsert])
      (by rw [quantileLinear_eval _ _ 2 (by norm_num) (by norm_num)]
          norm_num [sortQ, List.insertionSort, List.orderedInsert])]
    norm_num [clipQ]
  have h2 : winsorize_series [3/4, 1, 2, 9/4] (1/4) = [15/16, 1, 2, 33/16] := by
    rw [winsorize_eval [3/4, 1, 2, 9/4] (1/4) (15/16) (33/16) (by norm_num)
      (by rw [quantileLinear_eval _ _ 0 (by norm_num) (by norm_num)]
          norm_num [sortQ, List.insertionSort, List.orderedInsert])
      (by rw [quantileLinear_eval _ _ 2 (by norm_num) (by norm_num)]
          norm_num [sortQ, List.insertionSort, List.orderedInsert])]
    norm_num [clipQ]
  rw [h1, h2]
  norm_num

/-- Sorting commutes with mapping a monotone function. -/
theorem sortQ_map_monotone (f : ℚ → ℚ) (hf : Monotone f) (l : List ℚ) :
    sortQ (l.map f) = (sortQ l).map f := by
  apply List.eq_of_perm_of_sorted
    ((List.perm_insertionSort _ _).trans
      (((List.perm_insertionSort (· ≤ ·) l).map f).symm))
    (List.sorted_insertionSort _ _)
  exact List.Pairwise.map f (fun a b hab => hf hab)
    (List.sorted_insertionSort (· ≤ ·) l)

/-- Clipping is a monotone transform. -/
theorem clipQ_monotone (lo hi : ℚ) : Monotone (clipQ lo hi) := by
  intro x y hxy
  exact min_le_min (max_le_max hxy le_rfl) le_rfl

/-- Clipping twice with the same bounds is clipping once. -/
theorem clipQ_clipQ (lo hi x : ℚ) (h : lo ≤ hi) :
    clipQ lo hi (clipQ lo hi x) = clipQ lo hi x := by
  unfold clipQ
  rw [max_eq_left (le_min (le_max_right x lo) h), min_eq_left (min_le_right _ _)]

/-- The lower clip bound is a fixed point of clipping. -/
theorem clipQ_lo_fixed (lo hi : ℚ) (h : lo ≤ hi) : clipQ lo hi lo = lo := by
  unfold clipQ
  rw [max_self, min_eq_left h]

/-- The upper clip bound is a fixed point of clipping. -/
theorem clipQ_hi_fixed (lo hi : ℚ) (h : lo ≤ hi) : clipQ lo hi hi = hi := by
  unfold clipQ
  rw [max_eq_left h, min_self]

/-- `getD` through `map` at an in-bounds index. -/
theorem getD_map_of_lt (f : ℚ → ℚ) (l : List ℚ) (k : ℕ) (h : k < l.length)
    (d d' : ℚ) : (l.map f).getD k d = f (l.getD k d') := by
  have h2 : k < (l.map f).length := by simpa using h
  rw [List.getD_eq_get _ _ h2, List.getD_eq_get _ _ h]
  simp

/-- Entries of a sorted list are monotone in the index (via `getD`). -/
theorem sorted_getD_mono (l : List ℚ) (hs : List.Sorted (· ≤ ·) l) (i j : ℕ)
    (hij : i ≤ j) (hj : j < l.length) : l.getD i 0 ≤ l.getD j 0 := by
  have hi : i < l.length := lt_of_le_of_lt hij hj
  rw [List.getD_eq_get _ _ hi, List.getD_eq_get _ _ hj]
  exact hs.rel_get_of_le (Fin.mk_le_mk.mpr hij)

/-- Length is preserved by `sortQ`. -/
theorem length_sortQ (l : List ℚ) : (sortQ l).length = l.length :=
  (List.perm_insertionSort _ l).length_eq

/-- C4 (amended): winsorizing twice with the same `p` equals winsorizing
once when `p ≤ 0` (identity) or when the interpolation position `(n-1)·p`
is exactly an integer `k` (so both quantiles are order statistics, with
`0 < p ≤ 1/2`); for general `p` the linear interpolation moves the clipped
tails again and idempotence fails (see the counterexample at
`s = [0,1,2,3]`, `p = 1/4`). -/
theorem winsorize_idempotent_exact (s : List ℚ) (p : ℚ)
    (h : p ≤ 0 ∨ (0 < p ∧ p ≤ 1/2 ∧ ∃ k : ℕ, ((s.length : ℚ) - 1) * p = (k : ℚ))) :
    winsorize_series (winsorize_series s p) p = winsorize_series s p := by
  rcases h with hp | ⟨hp, hp2, k, hk⟩
  · simp [winsorize_series, hp]
  by_cases hnil : s = []
  · have hE : winsorize_series ([] : List ℚ) p = [] := by
      simp [winsorize_series, quantileLinear]
    rw [hnil, hE, hE]
  have hne : s.isEmpty = false := by simp [hnil]
  have hn1 : 1 ≤ s.length := List.length_pos.mpr hnil
  have hn1q : (1 : ℚ) ≤ (s.length : ℚ) := by exact_mod_cast hn1
  have hkleq : (k : ℚ) ≤ (s.length : ℚ) - 1 := by
    rw [← hk]
    nlinarith
  have hkn : k ≤ s.length - 1 := by
    have : (k : ℚ) ≤ ((s.length - 1 : ℕ) : ℚ) := by
      rwa [Nat.cast_sub hn1, Nat.cast_one]
    exact_mod_cast this
  have hk2cast : ((s.length : ℚ) - 1) * (1 - p) = ((s.length - 1 - k : ℕ) : ℚ) := by
    rw [Nat.cast_sub hkn, Nat.cast_sub hn1, Nat.cast_one]
    have : ((s.length : ℚ) - 1) * (1 - p) = ((s.length : ℚ) - 1) - ((s.length : ℚ) - 1) * p := by
      ring
    rw [this, hk]
  have hkk2 : k ≤ s.length - 1 - k := by
    have hq : (k : ℚ) ≤ ((s.length - 1 - k : ℕ) : ℚ) := by
      rw [← hk2cast, ← hk]
      nlinarith
    exact_mod_cast hq
  have hk2lt : s.length - 1 - k < s.length :=
    lt_of_le_of_lt (Nat.sub_le _ _) (Nat.sub_lt (lt_of_lt_of_le Nat.one_pos hn1) Nat.one_pos)
  have hklt : k < s.length := lt_of_le_of_lt hkk2 hk2lt
  have hsorted : List.Sorted (· ≤ ·) (sortQ s) := List.sorted_insertionSort _ s
  have hlen : (sortQ s).length = s.length := length_sortQ s
  have hlohi : (sortQ s).getD k 0 ≤ (sortQ s).getD (s.length - 1 - k) 0 :=
    sorted_getD_mono _ hsorted k _ hkk2 (by rw [hlen]; exact hk2lt)
  have hqlo : quantileLinear s p = some ((sortQ s).getD k 0) :=
    quantileLinear_exact s p k hne hk
  have hqhi : quantileLinear s (1 - p) = some ((sortQ s).getD (s.length - 1 - k) 0) :=
    quantileLinear_exact s (1 - p) _ hne hk2cast
  have hw : winsorize_series s p =
      s.map (clipQ ((sortQ s).getD k 0) ((sortQ s).getD (s.length - 1 - k) 0)) :=
    winsorize_eval s p _ _ hp hqlo hqhi
  have htlen : (s.map (clipQ ((sortQ s).getD k 0) ((sortQ s).getD (s.length - 1 - k) 0))).length
      = s.length := by simp
  have htne : (s.map (clipQ ((sortQ s).getD k 0) ((sortQ s).getD (s.length - 1 - k) 0))).isEmpty
      = false := by simp [hnil]
  have hsortt : sortQ (s.map (clipQ ((sortQ s).getD k 0) ((sortQ s).getD (s.length - 1 - k) 0)))
      = (sortQ s).map (clipQ ((sortQ s).getD k 0) ((sortQ s).getD (s.length - 1 - k) 0)) :=
    sortQ_map_monotone _ (clipQ_monotone _ _) s
  have hqlo2 : quantileLinear
      (s.map (clipQ ((sortQ s).getD k 0) ((sortQ s).getD (s.length - 1 - k) 0))) p
      = some ((sortQ s).getD k 0) := by
    rw [quantileLinear_exact _ p k htne (by rw [htlen]; exact hk), hsortt,
      getD_map_of_lt _ _ k (by rw [hlen]; exact hklt) 0 0,
      clipQ_lo_fixed _ _ hlohi]
  have hqhi2 : quantileLinear
      (s.map (clipQ ((sortQ s).getD k 0) ((sortQ s).getD (s.length - 1 - k) 0))) (1 - p)
      = some ((sortQ s).getD (s.length - 1 - k) 0) := by
    rw [quantileLinear_exact _ (1 - p) _ htne (by rw [htlen]; exact hk2cast), hsortt,
      getD_map_of_lt _ _ _ (by rw [hlen]; exact hk2lt) 0 0,
      clipQ_hi_fixed _ _ hlohi]
  rw [hw, winsorize_eval _ p _ _ hp hqlo2 hqhi2, List.map_map]
  exact List.map_congr_left (fun x _ => clipQ_clipQ _ _ x hlohi)

/-- Witness for C4 at `s = [0, 1, 2, 3, 4]`, `p = 1/4` (interpolation
position `(5-1)/4 = 1` is exact). -/
theorem winsorize_idempotent_exact_witness :
    winsorize_series (winsorize_series [0, 1, 2, 3, 4] (1/4)) (1/4) =
      winsorize_series [0, 1, 2, 3, 4] (1/4) :=
  winsorize_idempotent_exact [0, 1, 2, 3, 4] (1/4)
    (Or.inr ⟨by norm_num, by norm_num, ⟨1, by norm_num⟩⟩)

/-! ## C2: a value column that is entirely non-numeric after coercion -/

/-- C2 counterexample: a frame whose two rows survive `dropna` but whose
values are all unparsable is emptied by the numeric coercion; the code then
reaches the group-cardinality check and raises the "Expected exactly 2
groups ... found 0" `ValueError`, not the no-usable-rows
(`EmptyDatasetError`) one. -/
theorem check_inputs_all_text_counterexample :
    check_inputs
        (DataFrame.mk ["g", "v"]
          [(some (1 : ℚ), RawVal.text), (some 2, RawVal.text)]) "g" "v"
      = Except.error (ABError.groupCardinality 0) ∧
    ABError.groupCardinality 0 ≠ ABError.emptyAfterDropna := by
  exact ⟨rfl, by decide⟩

/-- C2 (amended): for every frame with both columns present in which the
rows survive the first `dropna` but numeric coercion drops every remaining
row, `check_inputs` fails with the group-cardinality error reporting 0
distinct groups (line 69-70), not with the empty-dataset error of
line 64-65. -/
theorem check_inputs_coercion_empties_group_cardinality {L : Type}
    [LinearOrder L] [DecidableEq L] (df : DataFrame L) (gc vc : String)
    (hg : gc ∈ df.cols) (hv : vc ∈ df.cols)
    (h1 : cleanRows df.rows ≠ [])
    (h2 : coerceRows (cleanRows df.rows) = []) :
    check_inputs df gc vc = Except.error (ABError.groupCardinality 0) := by
  obtain ⟨x, xs, hcons⟩ := List.exists_cons_of_ne_nil h1
  unfold check_inputs
  rw [if_pos ⟨hg, hv⟩, hcons]
  rw [hcons] at h2
  simp [h2]

/-- Witness for C2 at a one-row concrete frame. -/
theorem check_inputs_coercion_empties_witness :
    "g" ∈ ["g", "v"] ∧ "v" ∈ ["g", "v"] ∧
    cleanRows [((some (1 : ℚ)), RawVal.text)] ≠ [] ∧
    coerceRows (cleanRows [((some (1 : ℚ)), RawVal.text)]) = [] ∧
    check_inputs (DataFrame.mk ["g", "v"] [((some (1 : ℚ)), RawVal.text)]) "g" "v"
      = Except.error (ABError.groupCardinality 0) :=
  ⟨by decide, by decide, by decide, by decide,
   check_inputs_coercion_empties_group_cardinality
     (DataFrame.mk ["g", "v"] [((some (1 : ℚ)), RawVal.text)]) "g" "v"
     (by decide) (by decide) (by decide) (by decide)⟩

/-! ## C5: the CI bounds are the empirical quantiles of the retained lifts -/

/-- The bootstrap loop always produces exactly one lift slot per iteration
(excluded iterations are not retried and consume their own draws). -/
theorem bootstrapLifts_length (a b : List ℚ) (n : ℕ) :
    ∀ r : Rng, ((bootstrapLifts a b r n).1).length = n := by
  induction n with
  | zero => intro r; rfl
  | succ n ih => intro r; simp [bootstrapLifts, ih]

/-- Slot `i` of the lift array is exactly the lift of iteration `i`:
`NaN` (`none`) precisely when the iteration's `a`-resample mean is zero,
and the relative lift of the iteration's own two resamples otherwise. -/
theorem bootstrapLifts_getD (a b : List ℚ) (n : ℕ) :
    ∀ (r : Rng) (i : ℕ), i < n →
      ((bootstrapLifts a b r n).1).getD i none =
        (iterationLift a b (rngIter a b r i)).1 := by
  induction n with
  | zero => intro r i h; exact absurd h (Nat.not_lt_zero i)
  | succ n ih =>
    intro r i h
    cases i with
    | zero => simp [bootstrapLifts, rngIter]
    | succ i =>
      have hrec := ih (iterationLift a b r).2 i (Nat.lt_of_succ_lt_succ h)
      simpa [bootstrapLifts, rngIter] using hrec

/-- Any quantile of a non-empty list exists. -/
theorem quantileLinear_isSome (l : List ℚ) (q : ℚ) (h : l ≠ []) :
    ∃ v, quantileLinear l q = some v := by
  have hE : l.isEmpty = false := by simp [h]
  exact ⟨_, by rw [quantileLinear, if_neg (by simp [hE])]⟩

/-- C5: for non-empty samples, every bootstrap run produces one lift slot
per iteration, slot `i` is `none` exactly when iteration `i`'s `a`-resample
mean is zero (excluded, not zeroed, not retried — iteration `i+1` starts
from the generator state iteration `i` left behind) and the relative lift
of that iteration's own resamples otherwise; and whenever the retained
(non-`none`) lifts are non-empty, the returned CI bounds are exactly the
`alpha/2` and `1 - alpha/2` linear-interpolation quantiles of the retained
lift list. -/
theorem bootstrap_ci_quantiles_of_retained (a b : List ℚ) (n_boot : ℕ)
    (alpha : ℚ) (r : Rng) (ha : a ≠ []) (hb : b ≠ [])
    (h0 : 0 < alpha) (h1 : alpha < 1)
    (hret : ((bootstrapLifts a b r n_boot).1).filterMap id ≠ []) :
    ((bootstrapLifts a b r n_boot).1).length = n_boot ∧
    (∀ i, i < n_boot →
      ((bootstrapLifts a b r n_boot).1).getD i none =
        (if sampleMean (iterationDraw a b (rngIter a b r i)).1.1 = 0 then none
         else some ((sampleMean (iterationDraw a b (rngIter a b r i)).1.2 -
             sampleMean (iterationDraw a b (rngIter a b r i)).1.1) /
            sampleMean (iterationDraw a b (rngIter a b r i)).1.1))) ∧
    ∃ lo hi : ℚ,
      quantileLinear (((bootstrapLifts a b r n_boot).1).filterMap id) (alpha / 2) = some lo ∧
      quantileLinear (((bootstrapLifts a b r n_boot).1).filterMap id) (1 - alpha / 2) = some hi ∧
      bootstrap_lift_ci_rng a b n_boot alpha r = some (lo, hi) := by
  refine ⟨bootstrapLifts_length a b n_boot r, fun i hi => ?_, ?_⟩
  · rw [bootstrapLifts_getD a b n_boot r i hi]
    rfl
  · obtain ⟨lo, hlo⟩ := quantileLinear_isSome _ (alpha / 2) hret
    obtain ⟨hi2, hhi⟩ := quantileLinear_isSome _ (1 - alpha / 2) hret
    refine ⟨lo, hi2, hlo, hhi, ?_⟩
    unfold bootstrap_lift_ci_rng
    rw [hlo, hhi]

/-- Witness for C5 at `a = [2]`, `b = [4]`, one iteration, `alpha = 1/2`. -/
theorem bootstrap_ci_quantiles_of_retained_witness :
    ((bootstrapLifts [2] [4] (default_rng 0) 1).1).filterMap id ≠ [] ∧
    (((bootstrapLifts [2] [4] (default_rng 0) 1).1).length = 1 ∧
    (∀ i, i < 1 →
      ((bootstrapLifts [2] [4] (default_rng 0) 1).1).getD i none =
        (if sampleMean (iterationDraw [2] [4] (rngIter [2] [4] (default_rng 0) i)).1.1 = 0 then none
         else some ((sampleMean (iterationDraw [2] [4] (rngIter [2] [4] (default_rng 0) i)).1.2 -
             sampleMean (iterationDraw [2] [4] (rngIter [2] [4] (default_rng 0) i)).1.1) /
            sampleMean (iterationDraw [2] [4] (rngIter [2] [4] (default_rng 0) i)).1.1))) ∧
    ∃ lo hi : ℚ,
      quantileLinear (((bootstrapLifts [2] [4] (default_rng 0) 1).1).filterMap id)
        ((1/2) / 2) = some lo ∧
      quantileLinear (((bootstrapLifts [2] [4] (default_rng 0) 1).1).filterMap id)
        (1 - (1/2) / 2) = some hi ∧
      bootstrap_lift_ci_rng [2] [4] 1 (1/2) (default_rng 0) = some (lo, hi)) := by
  have hret : ((bootstrapLifts [2] [4] (default_rng 0) 1).1).filterMap id ≠ [] := by
    rw [bootstrapLifts_one_single 2 4 _ (by norm_num)]
    simp
  exact ⟨hret, bootstrap_ci_quantiles_of_retained [2] [4] 1 (1/2) (default_rng 0)
    (by simp) (by simp) (by norm_num) (by norm_num) hret⟩

/-! ## C3: a group with fewer than 2 observations -/

/-- Resampling from a one-element list always returns copies of its
element. -/
theorem rngChoice_single (c : ℚ) : ∀ (n : ℕ) (r : Rng),
    (rngChoice [c] n r).1 = List.replicate n c := by
  intro n
  induction n with
  | zero => intro r; rfl
  | succ n ih => intro r; simp [rngChoice, Nat.mod_one, ih, List.replicate_succ]

/-- With a one-element first sample `[c]`, `c ≠ 0`, a single bootstrap
iteration retains the lift of the (whatever) `b`-resample against `c`. -/
theorem bootstrapLifts_one_aSingle (c : ℚ) (b : List ℚ) (r : Rng) (hc : c ≠ 0) :
    (bootstrapLifts [c] b r 1).1 =
      [some ((sampleMean (iterationDraw [c] b r).1.2 - c) / c)] := by
  have hdraw : (iterationDraw [c] b r).1.1 = [c] := by
    simp [iterationDraw, rngChoice_single]
  simp [bootstrapLifts, iterationLift, hdraw, sampleMean_single, hc]

/-- C3 counterexample: on a frame whose group 1 has a single observation,
`analyze_ab` does not fail with any `DegenerateSampleError`-like error —
no such error exists in the code — but returns a result record whose Welch
statistic and p-value are `NaN` (scipy's silent output for a ddof-1
variance of an undersized sample). -/
theorem analyze_ab_degenerate_counterexample :
    (analyze_ab (DataFrame.mk ["g", "v"]
        [((some 1 : Option ℕ), RawVal.num 1), (some 2, RawVal.num 2),
         (some 2, RawVal.num 4)]) "g" "v" 0 (1/20) 1).toOption.map
      (fun res => (res.welch_t, res.welch_p)) = some (none, none) := by
  have hlifts := bootstrapLifts_one_aSingle 1 [2, 4] (default_rng 42) one_ne_zero
  have hfm : ((bootstrapLifts [(1:ℚ)] [2, 4] (default_rng 42) 1).1).filterMap id =
      [(sampleMean (iterationDraw [(1:ℚ)] [2, 4] (default_rng 42)).1.2 - 1) / 1] := by
    rw [hlifts]; simp
  have hci : bootstrap_lift_ci [(1:ℚ)] [2, 4] 1 (1/20) 42 =
      some ((sampleMean (iterationDraw [(1:ℚ)] [2, 4] (default_rng 42)).1.2 - 1) / 1,
            (sampleMean (iterationDraw [(1:ℚ)] [2, 4] (default_rng 42)).1.2 - 1) / 1) :=
    ci_rng_of_retained_singleton _ _ 1 (1/20) (default_rng 42) _ hfm
  unfold analyze_ab
  rw [show check_inputs (DataFrame.mk ["g", "v"]
        [((some 1 : Option ℕ), RawVal.num 1), (some 2, RawVal.num 2),
         (some 2, RawVal.num 4)]) "g" "v" = Except.ok ([(1:ℚ)], [2, 4]) from rfl]
  simp [-one_div, lt_self_iff_false, hci, Except.toOption, welch_t_test]

/-- C3 (amended): with a validated split in which a group has fewer than 2
observations and the rest of the pipeline succeeding, the engine does not
fail: `analyze_ab` (winsorization off) returns a result record whose Welch
statistic and p-value are `NaN` (`none`), rather than any
`DegenerateSampleError`. -/
theorem analyze_ab_degenerate_returns_record {L : Type} [LinearOrder L]
    [DecidableEq L] (df : DataFrame L) (gc vc : String) (alpha : ℚ)
    (n_boot : ℕ) (a0 b0 : List ℚ) (lo hi : ℚ)
    (hcheck : check_inputs df gc vc = Except.ok (a0, b0))
    (hdeg : a0.length < 2 ∨ b0.length < 2)
    (hboot : bootstrap_lift_ci a0 b0 n_boot alpha 42 = some (lo, hi)) :
    (analyze_ab df gc vc 0 alpha n_boot).toOption.map
      (fun res => (res.welch_t, res.welch_p)) = some (none, none) := by
  have hw : welch_t_test a0 b0 = (none, none) := by
    rw [welch_t_test, if_neg]
    rintro ⟨h2a, h2b, _⟩
    rcases hdeg with h | h <;> omega
  unfold analyze_ab
  rw [hcheck]
  simp [-one_div, lt_self_iff_false, hboot, hw, Except.toOption]

/-- Witness for C3 at a concrete frame with group sizes 1 and 2. -/
theorem analyze_ab_degenerate_returns_record_witness :
    (analyze_ab (DataFrame.mk ["g", "v"]
        [((some 1 : Option ℕ), RawVal.num 5), (some 2, RawVal.num 3),
         (some 2, RawVal.num 7)]) "g" "v" 0 (1/10) 1).toOption.map
      (fun res => (res.welch_t, res.welch_p)) = some (none, none) := by
  have hlifts := bootstrapLifts_one_aSingle 5 [3, 7] (default_rng 42)
    (by norm_num)
  have hfm : ((bootstrapLifts [(5:ℚ)] [3, 7] (default_rng 42) 1).1).filterMap id =
      [(sampleMean (iterationDraw [(5:ℚ)] [3, 7] (default_rng 42)).1.2 - 5) / 5] := by
    rw [hlifts]; simp
  exact analyze_ab_degenerate_returns_record
    (DataFrame.mk ["g", "v"]
      [((some 1 : Option ℕ), RawVal.num 5), (some 2, RawVal.num 3),
       (some 2, RawVal.num 7)]) "g" "v" (1/10) 1 [(5:ℚ)] [3, 7] _ _ rfl
    (by norm_num)
    (ci_rng_of_retained_singleton _ _ 1 (1/10) (default_rng 42) _ hfm)

/-! ## C9: the smaller label is always group "A", independent of row order -/

/-- C9: whenever `check_inputs` succeeds, its two output sequences are the
value sequences of two labels `la < lb` — group "A" is always the
lexicographically/numerically smaller of the two distinct labels — and for
any permutation of the source rows the validator succeeds with the same
label assignment, the groups merely permuted accordingly. -/
theorem check_inputs_sorted_labels {L : Type} [LinearOrder L] [DecidableEq L]
    (df : DataFrame L) (gc vc : String) (a b : List ℚ)
    (h : check_inputs df gc vc = Except.ok (a, b)) :
    ∃ la lb : L, la < lb ∧
      a = groupValues (coerceRows (cleanRows df.rows)) la ∧
      b = groupValues (coerceRows (cleanRows df.rows)) lb ∧
      ∀ rows₂ : List (Option L × RawVal), rows₂.Perm df.rows →
        check_inputs (DataFrame.mk df.cols rows₂) gc vc =
          Except.ok (groupValues (coerceRows (cleanRows rows₂)) la,
                     groupValues (coerceRows (cleanRows rows₂)) lb) ∧
        (groupValues (coerceRows (cleanRows rows₂)) la).Perm a ∧
        (groupValues (coerceRows (cleanRows rows₂)) lb).Perm b := by
  unfold check_inputs at h
  by_cases hcols : gc ∈ df.cols ∧ vc ∈ df.cols
  case neg => rw [if_neg hcols] at h; exact absurd h (by simp)
  rw [if_pos hcols] at h
  by_cases hempty : (cleanRows df.rows).isEmpty = true
  case pos => rw [if_pos hempty] at h; exact absurd h (by simp)
  rw [if_neg hempty] at h
  cases hsort : List.insertionSort (· ≤ ·)
      (((coerceRows (cleanRows df.rows)).map Prod.fst).dedup) with
  | nil => rw [hsort] at h; exact absurd h (by simp)
  | cons la rest =>
    cases rest with
    | nil => rw [hsort] at h; exact absurd h (by simp)
    | cons lb rest2 =>
      cases rest2 with
      | cons c rest3 => rw [hsort] at h; exact absurd h (by simp)
      | nil =>
        rw [hsort] at h
        injection h with h2
        injection h2 with ha hb
        have hs2 : List.Sorted (· ≤ ·) [la, lb] :=
          hsort ▸ List.sorted_insertionSort _ _
        have hnd : [la, lb].Nodup :=
          hsort ▸ ((List.perm_insertionSort _ _).nodup_iff.mpr (List.nodup_dedup _))
        have hle : la ≤ lb := by
          simpa using ((List.sorted_cons.mp hs2).1 lb (by simp))
        have hne2 : la ≠ lb := by
          have := (List.nodup_cons.mp hnd).1
          simpa using this
        refine ⟨la, lb, lt_of_le_of_ne hle hne2, ha.symm, hb.symm, ?_⟩
        intro rows₂ hperm
        have hclean : (cleanRows rows₂).Perm (cleanRows df.rows) :=
          hperm.filter _
        have hco : (coerceRows (cleanRows rows₂)).Perm
            (coerceRows (cleanRows df.rows)) := hclean.filterMap _
        have hdedup : (((coerceRows (cleanRows rows₂)).map Prod.fst).dedup).Perm
            (((coerceRows (cleanRows df.rows)).map Prod.fst).dedup) :=
          (hco.map _).dedup
        have hsort2 : List.insertionSort (· ≤ ·)
            (((coerceRows (cleanRows rows₂)).map Prod.fst).dedup) = [la, lb] := by
          rw [← hsort]
          exact List.eq_of_perm_of_sorted
            ((List.perm_insertionSort _ _).trans
              (hdedup.trans (List.perm_insertionSort _ _).symm))
            (List.sorted_insertionSort _ _) (List.sorted_insertionSort _ _)
        have hne3 : (cleanRows rows₂).isEmpty = false := by
          cases hE : cleanRows rows₂ with
          | nil =>
            exfalso
            apply hempty
            have h0 : ([] : List (Option L × RawVal)).Perm (cleanRows df.rows) :=
              hE ▸ hclean
            rw [h0.symm.eq_nil]
            rfl
          | cons x xs => rfl
        refine ⟨?_, ?_, ?_⟩
        · unfold check_inputs
          rw [if_pos hcols, if_neg (by simp [hne3]), hsort2]
        · rw [← ha]
          exact (hco.filter _).map _
        · rw [← hb]
          exact (hco.filter _).map _

/-- Witness for C9 at a concrete three-row frame with labels 5 and 3:
group "A" is label 3 (the smaller), group "B" is label 5. -/
theorem check_inputs_sorted_labels_witness :
    ∃ la lb : ℕ, la < lb ∧
      [20] = groupValues (coerceRows (cleanRows
        [((some 5 : Option ℕ), RawVal.num 10), (some 3, RawVal.num 20),
         (some 5, RawVal.num 30)])) la ∧
      [(10 : ℚ), 30] = groupValues (coerceRows (cleanRows
        [((some 5 : Option ℕ), RawVal.num 10), (some 3, RawVal.num 20),
         (some 5, RawVal.num 30)])) lb ∧
      ∀ rows₂ : List (Option ℕ × RawVal),
        rows₂.Perm [((some 5 : Option ℕ), RawVal.num 10), (some 3, RawVal.num 20),
          (some 5, RawVal.num 30)] →
        check_inputs (DataFrame.mk ["g", "v"] rows₂) "g" "v" =
          Except.ok (groupValues (coerceRows (cleanRows rows₂)) la,
                     groupValues (coerceRows (cleanRows rows₂)) lb) ∧
        (groupValues (coerceRows (cleanRows rows₂)) la).Perm [20] ∧
        (groupValues (coerceRows (cleanRows rows₂)) lb).Perm [(10 : ℚ), 30] :=
  check_inputs_sorted_labels
    (DataFrame.mk ["g", "v"]
      [((some 5 : Option ℕ), RawVal.num 10), (some 3, RawVal.num 20),
       (some 5, RawVal.num 30)]) "g" "v" [20] [(10 : ℚ), 30] rfl

/-! ## C1: the Welch t statistic and its two-sided p-value -/

/-- The beta integrand is nonnegative on `[0, 1]`. -/
theorem betaIntegrand_nonneg (A B u : ℝ) (h0 : 0 ≤ u) (h1 : u ≤ 1) :
    0 ≤ u ^ (A - 1) * (1 - u) ^ (B - 1) :=
  mul_nonneg (Real.rpow_nonneg h0 _) (Real.rpow_nonneg (by linarith) _)

/-- The beta integrand with parameters `A > 0`, `B = 1/2` is interval
integrable on `[0, 1/2]` (the possible singularity at `0` has exponent
`A - 1 > -1`). -/
theorem betaIntegrand_integrableOn_left (A : ℝ) (hA : 0 < A) :
    IntervalIntegrable (fun u : ℝ => u ^ (A - 1) * (1 - u) ^ ((1:ℝ)/2 - 1))
      MeasureTheory.volume 0 (1/2) := by
  have hbase : IntervalIntegrable (fun u : ℝ => u ^ (A - 1))
      MeasureTheory.volume 0 (1/2) :=
    intervalIntegral.intervalIntegrable_rpow' (by linarith)
  have hg : IntervalIntegrable (fun u : ℝ => ((1:ℝ)/2) ^ ((1:ℝ)/2 - 1) * u ^ (A - 1))
      MeasureTheory.volume 0 (1/2) := hbase.const_mul _
  apply hg.mono_fun
  · exact ((measurable_id.pow_const _).mul
      ((measurable_const.sub measurable_id).pow_const _)).aestronglyMeasurable
  · rw [Set.uIoc_of_le (by norm_num : (0:ℝ) ≤ 1/2)]
    refine (MeasureTheory.ae_restrict_iff' measurableSet_Ioc).mpr
      (Filter.Eventually.of_forall fun u hu => ?_)
    obtain ⟨hu0, hu1⟩ := hu
    have h1u : (0:ℝ) < 1 - u := by linarith
    have hfnn : 0 ≤ u ^ (A - 1) * (1 - u) ^ ((1:ℝ)/2 - 1) :=
      betaIntegrand_nonneg A (1/2) u hu0.le (by linarith)
    have hbound : (1 - u) ^ ((1:ℝ)/2 - 1) ≤ ((1:ℝ)/2) ^ ((1:ℝ)/2 - 1) :=
      Real.rpow_le_rpow_of_nonpos (by norm_num) (by linarith) (by norm_num)
    have hgnn : (0:ℝ) ≤ ((1:ℝ)/2) ^ ((1:ℝ)/2 - 1) * u ^ (A - 1) :=
      mul_nonneg (Real.rpow_nonneg (by norm_num) _) (Real.rpow_nonneg hu0.le _)
    simp only [Real.norm_eq_abs]
    rw [abs_of_nonneg hfnn, abs_of_nonneg hgnn,
      mul_comm (((1:ℝ)/2) ^ ((1:ℝ)/2 - 1))]
    exact mul_le_mul_of_nonneg_left hbound (Real.rpow_nonneg hu0.le _)

/-- The beta integrand with parameters `A > 0`, `B = 1/2` is interval
integrable on `[1/2, 1]` (the singularity at `1` has exponent `-1/2 > -1`). -/
theorem betaIntegrand_integrableOn_right (A : ℝ) (hA : 0 < A) :
    IntervalIntegrable (fun u : ℝ => u ^ (A - 1) * (1 - u) ^ ((1:ℝ)/2 - 1))
      MeasureTheory.volume (1/2) 1 := by
  have hbase : IntervalIntegrable (fun u : ℝ => u ^ ((1:ℝ)/2 - 1))
      MeasureTheory.volume 0 (1/2) :=
    intervalIntegral.intervalIntegrable_rpow' (by norm_num)
  have hcomp := hbase.comp_sub_left 1
  have e1 : (1:ℝ) - 1/2 = 1/2 := by norm_num
  have e2 : (1:ℝ) - 0 = 1 := by norm_num
  rw [e1, e2] at hcomp
  have hg : IntervalIntegrable
      (fun u : ℝ => (((1:ℝ)/2) ^ (A - 1) + 1) * (1 - u) ^ ((1:ℝ)/2 - 1))
      MeasureTheory.volume (1/2) 1 := hcomp.symm.const_mul _
  apply hg.mono_fun
  · exact ((measurable_id.pow_const _).mul
      ((measurable_const.sub measurable_id).pow_const _)).aestronglyMeasurable
  · rw [Set.uIoc_of_le (by norm_num : (1:ℝ)/2 ≤ 1)]
    refine (MeasureTheory.ae_restrict_iff' measurableSet_Ioc).mpr
      (Filter.Eventually.of_forall fun u hu => ?_)
    obtain ⟨hu0, hu1⟩ := hu
    have hu0' : (0:ℝ) < u := by linarith
    have hfnn : 0 ≤ u ^ (A - 1) * (1 - u) ^ ((1:ℝ)/2 - 1) :=
      betaIntegrand_nonneg A (1/2) u hu0'.le hu1
    have hbound : u ^ (A - 1) ≤ ((1:ℝ)/2) ^ (A - 1) + 1 := by
      rcases le_total 1 A with hA1 | hA1
      · have : u ^ (A - 1) ≤ (1:ℝ) ^ (A - 1) :=
          Real.rpow_le_rpow hu0'.le hu1 (by linarith)
        rw [Real.one_rpow] at this
        have : u ^ (A - 1) ≤ 1 := this
        have h2 : (0:ℝ) ≤ ((1:ℝ)/2) ^ (A - 1) := Real.rpow_nonneg (by norm_num) _
        linarith
      · have : u ^ (A - 1) ≤ ((1:ℝ)/2) ^ (A - 1) :=
          Real.rpow_le_rpow_of_nonpos (by norm_num) hu0.le (by linarith)
        linarith
    have hgnn : (0:ℝ) ≤ (((1:ℝ)/2) ^ (A - 1) + 1) * (1 - u) ^ ((1:ℝ)/2 - 1) :=
      mul_nonneg (by positivity) (Real.rpow_nonneg (by linarith) _)
    simp only [Real.norm_eq_abs]
    rw [abs_of_nonneg hfnn, abs_of_nonneg hgnn]
    exact mul_le_mul_of_nonneg_right hbound (Real.rpow_nonneg (by linarith) _)

/-- The beta integrand with parameters `A > 0`, `B = 1/2` is interval
integrable on all of `[0, 1]`. -/
theorem betaIntegrand_integrableOn (A : ℝ) (hA : 0 < A) :
    IntervalIntegrable (fun u : ℝ => u ^ (A - 1) * (1 - u) ^ ((1:ℝ)/2 - 1))
      MeasureTheory.volume 0 1 :=
  (betaIntegrand_integrableOn_left A hA).trans (betaIntegrand_integrableOn_right A hA)

/-- For `A > 0` and `0 ≤ x ≤ 1`, the regularized incomplete beta value
`I_x(A, 1/2)` lies in `[0, 1]`. -/
theorem betaInc_mem_Icc (A x : ℝ) (hA : 0 < A) (hx0 : 0 ≤ x) (hx1 : x ≤ 1) :
    0 ≤ betaInc A (1/2) x ∧ betaInc A (1/2) x ≤ 1 := by
  have hint := betaIntegrand_integrableOn A hA
  have hsub1 : IntervalIntegrable (fun u : ℝ => u ^ (A - 1) * (1 - u) ^ ((1:ℝ)/2 - 1))
      MeasureTheory.volume 0 x := by
    apply hint.mono_set
    rw [Set.uIcc_of_le hx0, Set.uIcc_of_le (by norm_num : (0:ℝ) ≤ 1)]
    exact Set.Icc_subset_Icc le_rfl hx1
  have hsub2 : IntervalIntegrable (fun u : ℝ => u ^ (A - 1) * (1 - u) ^ ((1:ℝ)/2 - 1))
      MeasureTheory.volume x 1 := by
    apply hint.mono_set
    rw [Set.uIcc_of_le hx1, Set.uIcc_of_le (by norm_num : (0:ℝ) ≤ 1)]
    exact Set.Icc_subset_Icc hx0 le_rfl
  have hadd := intervalIntegral.integral_add_adjacent_intervals hsub1 hsub2
  have hAx : 0 ≤ ∫ u in (0:ℝ)..x, u ^ (A - 1) * (1 - u) ^ ((1:ℝ)/2 - 1) :=
    intervalIntegral.integral_nonneg hx0
      (fun u hu => betaIntegrand_nonneg A (1/2) u hu.1 (le_trans hu.2 hx1))
  have htail : 0 ≤ ∫ u in x..(1:ℝ), u ^ (A - 1) * (1 - u) ^ ((1:ℝ)/2 - 1) :=
    intervalIntegral.integral_nonneg hx1
      (fun u hu => betaIntegrand_nonneg A (1/2) u (le_trans hx0 hu.1) hu.2)
  have hB : 0 ≤ ∫ u in (0:ℝ)..(1:ℝ), u ^ (A - 1) * (1 - u) ^ ((1:ℝ)/2 - 1) := by
    rw [← hadd]; linarith
  have hAB : (∫ u in (0:ℝ)..x, u ^ (A - 1) * (1 - u) ^ ((1:ℝ)/2 - 1)) ≤
      ∫ u in (0:ℝ)..(1:ℝ), u ^ (A - 1) * (1 - u) ^ ((1:ℝ)/2 - 1) := by
    rw [← hadd]; linarith
  constructor
  · exact div_nonneg hAx hB
  · rcases eq_or_lt_of_le hB with hB0 | hB0
    · rw [betaInc, ← hB0, div_zero]
      norm_num
    · rw [betaInc, div_le_one hB0]
      exact hAB

/-- The two-sided Student-t p-value lies in `[0, 1]` for any statistic and
any positive degrees of freedom. -/
theorem tTwoSidedP_mem_Icc (df : ℚ) (t : ℝ) (hdf : 0 < df) :
    0 ≤ tTwoSidedP df t ∧ tTwoSidedP df t ≤ 1 := by
  have hdf' : (0:ℝ) < (df : ℝ) := by exact_mod_cast hdf
  have hden : (0:ℝ) < (df : ℝ) + t ^ 2 := by positivity
  exact betaInc_mem_Icc ((df : ℝ)/2) ((df : ℝ)/((df : ℝ) + t ^ 2))
    (by linarith) (le_of_lt (div_pos hdf' hden))
    (by rw [div_le_one hden]; nlinarith [sq_nonneg t])

/-- The unbiased sample variance is nonnegative for samples of size at
least 2. -/
theorem sampleVar_nonneg (l : List ℚ) (h : 2 ≤ l.length) : 0 ≤ sampleVar l := by
  unfold sampleVar
  apply div_nonneg
  · apply List.sum_nonneg
    intro x hx
    obtain ⟨y, _, rfl⟩ := List.mem_map.mp hx
    positivity
  · have : (2:ℚ) ≤ (l.length : ℚ) := by exact_mod_cast h
    linarith

/-- The Welch–Satterthwaite degrees of freedom are positive whenever both
samples have at least 2 observations and the pooled standard error is
positive. -/
theorem welchDF_pos (a b : List ℚ) (ha : 2 ≤ a.length) (hb : 2 ≤ b.length)
    (hse : 0 < welchSE a b) : 0 < welchDF a b := by
  have h2a : (2:ℚ) ≤ (a.length : ℚ) := by exact_mod_cast ha
  have h2b : (2:ℚ) ≤ (b.length : ℚ) := by exact_mod_cast hb
  have hva : 0 ≤ sampleVar a / (a.length : ℚ) :=
    div_nonneg (sampleVar_nonneg a ha) (by linarith)
  have hvb : 0 ≤ sampleVar b / (b.length : ℚ) :=
    div_nonneg (sampleVar_nonneg b hb) (by linarith)
  unfold welchDF
  apply div_pos (pow_pos hse 2)
  by_cases hA : 0 < sampleVar a / (a.length : ℚ)
  · have h1 : 0 < (sampleVar a / (a.length : ℚ)) ^ 2 / ((a.length : ℚ) - 1) :=
      div_pos (pow_pos hA 2) (by linarith)
    have h2 : 0 ≤ (sampleVar b / (b.length : ℚ)) ^ 2 / ((b.length : ℚ) - 1) :=
      div_nonneg (sq_nonneg _) (by linarith)
    linarith
  · have hA0 : sampleVar a / (a.length : ℚ) = 0 :=
      le_antisymm (not_lt.mp hA) hva
    have hB : 0 < sampleVar b / (b.length : ℚ) := by
      unfold welchSE at hse
      rw [hA0] at hse
      linarith
    have h1 : 0 < (sampleVar b / (b.length : ℚ)) ^ 2 / ((b.length : ℚ) - 1) :=
      div_pos (pow_pos hB 2) (by linarith)
    have h2 : 0 ≤ (sampleVar a / (a.length : ℚ)) ^ 2 / ((a.length : ℚ) - 1) :=
      div_nonneg (sq_nonneg _) (by linarith)
    linarith

/-- C1 counterexample: for `A = [0, 2]`, `B = [1, 3]` we have
`mean_B - mean_A = 1 > 0`, yet the statistic returned by the engine is
negative (it is `(mean_A - mean_B)/sqrt(var_A/n_A + var_B/n_B)`, scipy's
first-minus-second convention), so it does not equal the claimed
`(mean_B - mean_A)/sqrt(...)` and its sign does not match
`mean_B - mean_A`. -/
theorem welch_sign_counterexample :
    0 < sampleMean [1, 3] - sampleMean [0, 2] ∧ welchT [0, 2] [1, 3] < 0 := by
  constructor
  · norm_num [sampleMean]
  · unfold welchT
    have hse : welchSE [0, 2] [1, 3] = 2 := by
      norm_num [welchSE, sampleVar, sampleMean]
    have hm : sampleMean [0, 2] - sampleMean [1, 3] = -1 := by
      norm_num [sampleMean]
    rw [hse, hm]
    have hs : (0:ℝ) < Real.sqrt ((2:ℚ) : ℝ) := by
      apply Real.sqrt_pos.mpr
      norm_num
    apply div_neg_of_neg_of_pos _ hs
    norm_num

/-- C1 (amended): for samples with at least 2 observations each and a
positive pooled standard error, the Welch statistic returned by the engine
equals `(mean_A - mean_B)/sqrt(var_A/n_A + var_B/n_B)` with unbiased
(n-1 denominator) sample variances — scipy's first-minus-second sign
convention, the opposite of the claimed `mean_B - mean_A` orientation — so
its sign matches the sign of `(mean_A - mean_B)`; the accompanying
two-sided p-value lies in `[0, 1]`. -/
theorem welch_t_test_spec (a b : List ℚ) (ha : 2 ≤ a.length) (hb : 2 ≤ b.length)
    (hse : 0 < welchSE a b) :
    (welch_t_test a b).1 =
      some (((sampleMean a : ℝ) - (sampleMean b : ℝ)) /
        Real.sqrt ((sampleVar a : ℝ) / (a.length : ℝ) + (sampleVar b : ℝ) / (b.length : ℝ))) ∧
    (0 < welchT a b ↔ sampleMean b < sampleMean a) ∧
    (welchT a b < 0 ↔ sampleMean a < sampleMean b) ∧
    ∃ p : ℝ, (welch_t_test a b).2 = some p ∧ 0 ≤ p ∧ p ≤ 1 := by
  have hcond : 2 ≤ a.length ∧ 2 ≤ b.length ∧ 0 < welchSE a b := ⟨ha, hb, hse⟩
  have hsqrt : (0:ℝ) < Real.sqrt ((welchSE a b : ℚ) : ℝ) :=
    Real.sqrt_pos.mpr (by exact_mod_cast hse)
  refine ⟨?_, ?_, ?_, ?_⟩
  · rw [welch_t_test, if_pos hcond]
    unfold welchT welchSE
    push_cast
    ring_nf
  · unfold welchT
    rw [lt_div_iff hsqrt, zero_mul]
    constructor
    · intro h
      have : (0:ℚ) < sampleMean a - sampleMean b := by exact_mod_cast h
      linarith
    · intro h
      have : (0:ℚ) < sampleMean a - sampleMean b := by linarith
      exact_mod_cast this
  · unfold welchT
    rw [div_lt_iff hsqrt, zero_mul]
    constructor
    · intro h
      have : sampleMean a - sampleMean b < (0:ℚ) := by exact_mod_cast h
      linarith
    · intro h
      have : sampleMean a - sampleMean b < (0:ℚ) := by linarith
      exact_mod_cast this
  · refine ⟨tTwoSidedP (welchDF a b) (welchT a b), ?_, ?_, ?_⟩
    · rw [welch_t_test, if_pos hcond]
    · exact (tTwoSidedP_mem_Icc _ _ (welchDF_pos a b ha hb hse)).1
    · exact (tTwoSidedP_mem_Icc _ _ (welchDF_pos a b ha hb hse)).2

/-- Witness for C1 at `A = [0, 2]`, `B = [1, 3]`. -/
theorem welch_t_test_spec_witness :
    2 ≤ ([0, 2] : List ℚ).length ∧ 2 ≤ ([1, 3] : List ℚ).length ∧
    0 < welchSE [0, 2] [1, 3] ∧
    ((welch_t_test [0, 2] [1, 3]).1 =
      some (((sampleMean [0, 2] : ℝ) - (sampleMean [1, 3] : ℝ)) /
        Real.sqrt ((sampleVar [0, 2] : ℝ) / (([0, 2] : List ℚ).length : ℝ) +
          (sampleVar [1, 3] : ℝ) / (([1, 3] : List ℚ).length : ℝ))) ∧
    (0 < welchT [0, 2] [1, 3] ↔ sampleMean [1, 3] < sampleMean [0, 2]) ∧
    (welchT [0, 2] [1, 3] < 0 ↔ sampleMean [0, 2] < sampleMean [1, 3]) ∧
    ∃ p : ℝ, (welch_t_test [0, 2] [1, 3]).2 = some p ∧ 0 ≤ p ∧ p ≤ 1) :=
  ⟨by norm_num, by norm_num, by norm_num [welchSE, sampleVar, sampleMean],
   welch_t_test_spec [0, 2] [1, 3] (by norm_num) (by norm_num)
     (by norm_num [welchSE, sampleVar, sampleMean])⟩

end ABTester
